import Mathlib

/-!
Verification development for the GenoStream downloader
(`download_data.py`), the data-ingestion engine of this repository.

The streaming subsampler `stream_subsample_to_gz`, the length prober
`probe_mean_read_length`, the retrying transport `http_get_with_retries`,
the species normalizer `normalize_species`, the mate detector
`detect_r1_r2` and the paired-end coordination code in `main` are embedded
as executable Lean functions below.

Modelling conventions:
* A FASTQ line is represented by the length of its stripped sequence
  content (a `Nat`); the subsampler and prober only ever inspect
  `len(line.strip())`, so nothing else about a line is observable.
* The on-disk size of the partially written compressed temporary file is
  an abstract function `sz : Nat → Nat`, where `sz n` is the size
  observed by `os.path.getsize` once `n` complete records have been
  flushed (`gz_out.flush()` happens only in the MB-target check and the
  hard-cap check, both at record boundaries).  The float threshold
  `0.90 * max_bytes` is modelled exactly as the rational inequality
  `9 * maxBytes ≤ 10 * current`.
* Python float means from the prober are modelled as `ℚ`.
-/

/-- Target mode of `stream_subsample_to_gz` (`mode` argument:
`"READS" | "BASES" | "MB"`). -/
inductive Mode
  | READS
  | BASES
  | MB
deriving DecidableEq

/-- Mutable loop state of `stream_subsample_to_gz`: the counters
`reads`, `bases`, `line_mod`, the number of lines written to the gzip
output, the number of records whose lines have been explicitly flushed
to disk, and whether the loop exited through a `break`. -/
structure SubState where
  reads : Nat
  bases : Nat
  lineMod : Nat
  linesOut : Nat
  flushed : Nat
  stopped : Bool
deriving DecidableEq

/-- `should_check_now` from `stream_subsample_to_gz`: in MB mode, once
the last observed on-disk size has crossed 90% of the byte target, check
on every record; below that, check every `check_every_reads` records. -/
def shouldCheckNow (mode : Mode) (maxBytes K : Nat) (sz : Nat → Nat)
    (reads flushed : Nat) : Bool :=
  if mode ≠ Mode.MB then false
  else if reads = 0 then false
  else if 9 * maxBytes ≤ 10 * sz flushed then true
  else reads % K = 0

/-- The body of `stream_subsample_to_gz` that runs right after a record's
4th line has been written (`line_mod == 0`): target tests for the three
modes, the MB-mode size check, and the optional hard byte cap.  Returns
the updated state and whether a `break` was taken. -/
def recordBoundary (mode : Mode) (target K : Nat) (cap : Option Nat)
    (sz : Nat → Nat) (st : SubState) : SubState × Bool :=
  if mode = Mode.READS ∧ target ≤ st.reads then (st, true)
  else if mode = Mode.BASES ∧ target ≤ st.bases then (st, true)
  else
    let maxBytes := if mode = Mode.MB then target * 1024 * 1024 else 0
    let p1 : SubState × Bool :=
      if mode = Mode.MB then
        if shouldCheckNow mode maxBytes K sz st.reads st.flushed then
          let st2 := { st with flushed := st.reads }
          if maxBytes ≤ sz st.reads then (st2, true) else (st2, false)
        else (st, false)
      else (st, false)
    if p1.2 then p1
    else
      match cap with
      | none => p1
      | some capBytes =>
        if p1.1.reads % 2000 = 0 then
          let st3 := { p1.1 with flushed := p1.1.reads }
          if capBytes ≤ sz p1.1.reads then (st3, true) else (st3, false)
        else p1

/-- The streaming loop of `stream_subsample_to_gz`: every incoming line
is written before any accounting, `line_mod` cycles through 1,2,3,0, the
sequence line (`line_mod == 2`) feeds the base counter, and all stop
decisions happen at `line_mod == 0` via `recordBoundary`. -/
def subLoop (mode : Mode) (target K : Nat) (cap : Option Nat)
    (sz : Nat → Nat) : List Nat → SubState → SubState
  | [], st => st
  | l :: rest, st =>
    let lm := (st.lineMod + 1) % 4
    let st1 : SubState :=
      ⟨st.reads, if lm = 2 then st.bases + l else st.bases, lm,
        st.linesOut + 1, st.flushed, st.stopped⟩
    if lm = 0 then
      let st2 := { st1 with reads := st1.reads + 1 }
      let p := recordBoundary mode target K cap sz st2
      if p.2 then { p.1 with stopped := true }
      else subLoop mode target K cap sz rest p.1
    else
      subLoop mode target K cap sz rest st1

/-- Initial counters of one `stream_subsample_to_gz` invocation. -/
def initState : SubState := ⟨0, 0, 0, 0, 0, false⟩

/-- `stream_subsample_to_gz` restricted to its in-memory effect: run the
streaming loop on the concatenated input lines from the given state of
the world and report the final counters. -/
def streamSubsample (mode : Mode) (target K : Nat) (cap : Option Nat)
    (sz : Nat → Nat) (lines : List Nat) : SubState :=
  subLoop mode target K cap sz lines initState

/-! ### Length prober (`probe_mean_read_length`) -/

/-- The counting loop of `probe_mean_read_length`: 4-line record parsing
with `line_mod`, sequence-line lengths accumulated, stop after
`probe_reads` complete records.  Returns `(reads, bases)`. -/
def probeLoop (probeReads : Nat) : List Nat → Nat → Nat → Nat → Nat × Nat
  | [], r, b, _ => (r, b)
  | l :: rest, r, b, lm =>
    let lm1 := (lm + 1) % 4
    let b1 := if lm1 = 2 then b + l else b
    if lm1 = 0 then
      let r1 := r + 1
      if probeReads ≤ r1 then (r1, b1)
      else probeLoop probeReads rest r1 b1 lm1
    else probeLoop probeReads rest r b1 lm1

/-- `probe_mean_read_length`: probes only the first file part of the
link list (`urls[0]`), returns `None` for an empty list or when zero
complete records were read, else `bases / reads` (a Python float,
modelled as `ℚ`). -/
def probeMeanReadLength (parts : List (List Nat)) (probeReads : Nat) : Option ℚ :=
  match parts with
  | [] => none
  | p :: _ =>
    let rb := probeLoop probeReads p 0 0 0
    if rb.1 = 0 then none else some ((rb.2 : ℚ) / (rb.1 : ℚ))

/-- Sum of the sequence-line lengths (2nd line of each 4-line record) of
a line list, taken record by record. -/
def seqSum : List Nat → Nat
  | _ :: b :: _ :: _ :: rest => b + seqSum rest
  | _ => 0

/-! ### Paired-end coordination in `main` (short-read branch) -/

/-- Result of the paired short-read flow in `main`: which mode and
target mate 1 was downloaded with, and the record counts actually
emitted for mate 1 and mate 2. -/
structure PairedResult where
  mate1Mode : Mode
  mate1Target : Nat
  reads1 : Nat
  reads2 : Nat
deriving DecidableEq

/-- Python truthiness of an `Optional[float]` probe result as used in
`if not mean_r1 or not mean_r2 ...`: `None` and `0.0` are both falsy. -/
def probeFalsy : Option ℚ → Bool
  | none => true
  | some m => m = 0

/-- The paired short-read branch of `main` (v3.5 paired-end integrity
mode): given the two probe outcomes, the total short-read base target and
the two mate streams, it downloads mate 1 with
`READS = ceil(target / (mean1 + mean2))` when both probes are truthy and
their sum is positive, else falls back to `BASES = target // 2`; mate 2
is then downloaded with `READS` equal to mate 1's actually emitted
record count.  `K` is `check_every_reads`; the optional hard cap is not
set here, matching the claims under study. -/
def fetchPairedShortReads (p1 p2 : Option ℚ) (totalBaseTarget : Nat)
    (lines1 lines2 : List Nat) (K : Nat) (sz1 sz2 : Nat → Nat) : PairedResult :=
  if probeFalsy p1 ∨ probeFalsy p2 ∨ p1.getD 0 + p2.getD 0 ≤ 0 then
    let r1 := streamSubsample Mode.BASES (totalBaseTarget / 2) K none sz1 lines1
    let r2 := streamSubsample Mode.READS r1.reads K none sz2 lines2
    ⟨Mode.BASES, totalBaseTarget / 2, r1.reads, r2.reads⟩
  else
    let needed := (⌈(totalBaseTarget : ℚ) / (p1.getD 0 + p2.getD 0)⌉).toNat
    let r1 := streamSubsample Mode.READS needed K none sz1 lines1
    let r2 := streamSubsample Mode.READS r1.reads K none sz2 lines2
    ⟨Mode.READS, needed, r1.reads, r2.reads⟩

/-! ### Atomic-write model of `stream_subsample_to_gz` (C4) -/

/-- The part of the filesystem `stream_subsample_to_gz` touches: the
content (as written lines) at `output_path` and at the temporary path
`output_path + ".part"`; `none` means the path does not exist. -/
structure FS where
  out : Option (List Nat)
  tmp : Option (List Nat)
deriving DecidableEq

/-- Whether a run of `stream_subsample_to_gz` hits the stream error: the
input iterator raises after yielding `e` lines (`errAfter = some e`), and
the loop did not `break` within those `e` lines, so it asks for one more
line and the exception propagates into the `except` handler. -/
def errOccurs (mode : Mode) (target K : Nat) (cap : Option Nat)
    (sz : Nat → Nat) (lines : List Nat) (errAfter : Option Nat) : Bool :=
  match errAfter with
  | none => false
  | some e => !(subLoop mode target K cap sz (lines.take e) initState).stopped

/-- `stream_subsample_to_gz` with its filesystem effect: all lines are
written to the temporary path; on success `os.replace` moves the
temporary file to `output_path` in one step and the counters are
returned; when the stream raises, the `except` branch removes the
temporary file and the function returns `(0, 0, 0.0)` normally (the
exception is not re-raised).  The returned size is `sz` at the final
record count, standing in for `file_size_mb`. -/
def streamSubsampleFS (mode : Mode) (target K : Nat) (cap : Option Nat)
    (sz : Nat → Nat) (lines : List Nat) (errAfter : Option Nat) (fs : FS) :
    FS × (Nat × Nat × Nat) :=
  match errAfter with
  | none =>
    let res := subLoop mode target K cap sz lines initState
    (⟨some (lines.take res.linesOut), none⟩, (res.reads, res.bases, sz res.reads))
  | some e =>
    let res := subLoop mode target K cap sz (lines.take e) initState
    if res.stopped then
      (⟨some (lines.take res.linesOut), none⟩, (res.reads, res.bases, sz res.reads))
    else
      (⟨fs.out, none⟩, (0, 0, 0))

/-! ### Transport (`http_get_with_retries`) -/

/-- Outcome of one `session.get` call: a connection-level failure
(raising `requests.RequestException` before any status is available) or
an HTTP response with a status code. -/
inductive HttpResp
  | connFail
  | status (code : Nat)
deriving DecidableEq

/-- The explicitly retried server-busy/unavailable status codes of
`http_get_with_retries`: `(429, 500, 502, 503, 504)`. -/
def retryStatus (c : Nat) : Bool :=
  c = 429 ∨ c = 500 ∨ c = 502 ∨ c = 503 ∨ c = 504

/-- The attempt loop of `http_get_with_retries`
(`for attempt in range(1, retries + 2)`), with the response of attempt
`i` given by `responses i` and the remaining loop iterations as fuel.
A status in `retryStatus` sleeps and continues; any other status goes
through `raise_for_status`, whose `HTTPError` (for 400–599) is caught by
the `except requests.RequestException` branch, which retries while
`attempt <= retries`; statuses outside 400–599 are returned.  Running
out of attempts raises `RuntimeError`, modelled as `Except.error`. -/
def httpGo (responses : Nat → HttpResp) (retries : Nat) : Nat → Nat → Except Unit Nat
  | _, 0 => Except.error ()
  | attempt, fuel + 1 =>
    match responses attempt with
    | HttpResp.connFail =>
      if attempt ≤ retries then httpGo responses retries (attempt + 1) fuel
      else Except.error ()
    | HttpResp.status c =>
      if retryStatus c then httpGo responses retries (attempt + 1) fuel
      else if 400 ≤ c ∧ c < 600 then
        (if attempt ≤ retries then httpGo responses retries (attempt + 1) fuel
         else Except.error ())
      else Except.ok c

/-- `http_get_with_retries`: attempts start at 1 and at most
`retries + 1` GET requests are issued. -/
def httpGetWithRetries (responses : Nat → HttpResp) (retries : Nat) : Except Unit Nat :=
  httpGo responses retries 1 (retries + 1)

/-! ### Species normalization (`normalize_species`, C8) -/

/-- The ASCII whitespace characters Python `str.split()` and
`str.strip()` split on (space, tab, newline, carriage return, vertical
tab, form feed).  Unicode-only whitespace is outside this model. -/
def pyIsSpace (c : Char) : Bool :=
  c = ' ' ∨ c = '\t' ∨ c = '\n' ∨ c = '\r' ∨ c = '\x0b' ∨ c = '\x0c'

/-- ASCII lowercasing, the fragment of Python `str.lower()` relevant to
organism names. -/
def lowerChar (c : Char) : Char :=
  if 'A' ≤ c ∧ c ≤ 'Z' then Char.ofNat (c.toNat + 32) else c

/-- Removal of trailing Python whitespace (the right half of
`str.strip()`). -/
def trimEndChars : List Char → List Char
  | [] => []
  | c :: cs =>
    match trimEndChars cs with
    | [] => if pyIsSpace c then [] else [c]
    | r => c :: r

/-- Python `str.strip()`: drop leading and trailing whitespace. -/
def pyStrip (l : List Char) : List Char :=
  trimEndChars (l.dropWhile pyIsSpace)

/-- Python `str.split()` with no separator: the maximal runs of
non-whitespace characters, in order, with no empty words. -/
def pyWords : List Char → List (List Char)
  | [] => []
  | c :: cs =>
    if pyIsSpace c then pyWords cs
    else (c :: cs.takeWhile (fun x => !pyIsSpace x)) ::
      pyWords (cs.dropWhile (fun x => !pyIsSpace x))
termination_by l => l.length
decreasing_by
  · simp
  · simp only [List.length_cons]
    exact Nat.lt_succ_of_le (cs.dropWhile_sublist _).length_le

/-- Python `" ".join(words)`. -/
def joinSpace : List (List Char) → List Char
  | [] => []
  | [w] => w
  | w :: ws => w ++ ' ' :: joinSpace ws

/-- `normalize_species`:
`" ".join((s or "").strip().lower().split())`. -/
def normalizeSpecies (s : List Char) : List Char :=
  joinSpace (pyWords ((pyStrip s).map lowerChar))

/-- The organism acceptance test of `find_valid_run`: a candidate is
accepted exactly when `normalize_species(candidate)` equals
`normalize_species(requested)`. -/
def speciesAccepted (requested candidate : List Char) : Bool :=
  normalizeSpecies candidate == normalizeSpecies requested

/-- Collapse every maximal whitespace run to one single space; the
`Bool` says whether we are inside a run whose space was already
emitted. -/
def collapseRuns : Bool → List Char → List Char
  | _, [] => []
  | inRun, c :: cs =>
    if pyIsSpace c then
      (if inRun then collapseRuns true cs else ' ' :: collapseRuns true cs)
    else c :: collapseRuns false cs

/-- Normalization exactly as claim C8 words it: lowercase and collapse
all maximal whitespace runs to a single space (no trimming). -/
def claimNormalize (s : List Char) : List Char :=
  collapseRuns false (s.map lowerChar)

/-- Normalization as amended: trim leading and trailing whitespace, then
lowercase and collapse interior maximal whitespace runs to a single
space. -/
def specNormalizeTrim (s : List Char) : List Char :=
  collapseRuns false ((pyStrip s).map lowerChar)

/-! ### Mate detection (`detect_r1_r2`, C10) -/

/-- Whether `pat` occurs at the start of `s`. -/
def startsWithChars : List Char → List Char → Bool
  | [], _ => true
  | _ :: _, [] => false
  | p :: ps, c :: cs => p = c && startsWithChars ps cs

/-- Python substring containment `pat in s`. -/
def containsChars (pat : List Char) : List Char → Bool
  | [] => pat.isEmpty
  | c :: cs => startsWithChars pat (c :: cs) || containsChars pat cs

/-- The R1-style markers of `detect_r1_r2`, tested on the lowercased
URL: `"_1.fastq"`, `"_r1"`, `".r1."`. -/
def hasR1Mark (ul : List Char) : Bool :=
  containsChars "_1.fastq".toList ul || containsChars "_r1".toList ul ||
    containsChars ".r1.".toList ul

/-- The R2-style markers of `detect_r1_r2`: `"_2.fastq"`, `"_r2"`,
`".r2."`. -/
def hasR2Mark (ul : List Char) : Bool :=
  containsChars "_2.fastq".toList ul || containsChars "_r2".toList ul ||
    containsChars ".r2.".toList ul

/-- Python string `<=` (lexicographic by code point), used through
`sorted(urls)` on a two-element list. -/
def lexLe : List Char → List Char → Bool
  | [], _ => true
  | _ :: _, [] => false
  | a :: as, b :: bs => if a = b then lexLe as bs else decide (a < b)

/-- `detect_r1_r2`: URLs with an R1 marker (lowercased) go to mate 1,
URLs with an R2 marker and no R1 marker go to mate 2; if either side is
empty and there are exactly two URLs, `sorted(urls)` decides; a single
URL with no R1 marker is returned as mate 1 alone. -/
def detectR1R2 (urls : List (List Char)) : List (List Char) × List (List Char) :=
  let r1 := urls.filter (fun u => hasR1Mark (u.map lowerChar))
  let r2 := urls.filter
    (fun u => !hasR1Mark (u.map lowerChar) && hasR2Mark (u.map lowerChar))
  match urls with
  | [a, b] =>
    if r1.isEmpty || r2.isEmpty then
      if lexLe a b then ([a], [b]) else ([b], [a])
    else (r1, r2)
  | [a] => if r1.isEmpty then ([a], []) else (r1, r2)
  | _ => (r1, r2)

/-! ### Generic facts about the subsampler loop -/

/-- Unfolding of the subsampler loop across one complete 4-line record,
starting at a record boundary (`line_mod == 0`). -/
theorem subLoop_chunk (mode : Mode) (target K : Nat) (cap : Option Nat)
    (sz : Nat → Nat) (a b c d : Nat) (rest : List Nat) (st : SubState)
    (h : st.lineMod = 0) :
    subLoop mode target K cap sz (a :: b :: c :: d :: rest) st =
      (if (recordBoundary mode target K cap sz
            ⟨st.reads + 1, st.bases + b, 0, st.linesOut + 4, st.flushed, st.stopped⟩).2 then
        { (recordBoundary mode target K cap sz
            ⟨st.reads + 1, st.bases + b, 0, st.linesOut + 4, st.flushed, st.stopped⟩).1 with
          stopped := true }
       else subLoop mode target K cap sz rest
        (recordBoundary mode target K cap sz
          ⟨st.reads + 1, st.bases + b, 0, st.linesOut + 4, st.flushed, st.stopped⟩).1) := by
  obtain ⟨r, bb, lm, lo, f, s⟩ := st
  simp only at h
  subst h
  simp only [subLoop]
  norm_num

/-- In `READS` mode with no hard cap, the record-boundary check stops
exactly when the target record count is reached and changes nothing. -/
theorem rb_reads_none (t K : Nat) (sz : Nat → Nat) (st : SubState) :
    recordBoundary Mode.READS t K none sz st = (st, decide (t ≤ st.reads)) := by
  unfold recordBoundary shouldCheckNow
  by_cases h : t ≤ st.reads <;> simp [h]

/-- In `BASES` mode with no hard cap, the record-boundary check stops
exactly when the cumulative base count has reached the target. -/
theorem rb_bases_none (t K : Nat) (sz : Nat → Nat) (st : SubState) :
    recordBoundary Mode.BASES t K none sz st = (st, decide (t ≤ st.bases)) := by
  unfold recordBoundary shouldCheckNow
  by_cases h : t ≤ st.bases <;> simp [h]

/-- In `MB` mode with no hard cap, the record-boundary check flushes and
compares the on-disk size against the byte target exactly when
`should_check_now` fires. -/
theorem rb_mb_none (t K : Nat) (sz : Nat → Nat) (st : SubState) :
    recordBoundary Mode.MB t K none sz st =
      (if shouldCheckNow Mode.MB (t * 1024 * 1024) K sz st.reads st.flushed then
        (if t * 1024 * 1024 ≤ sz st.reads then ({ st with flushed := st.reads }, true)
         else ({ st with flushed := st.reads }, false))
       else (st, false)) := by
  by_cases hc : shouldCheckNow Mode.MB (t * 1024 * 1024) K sz st.reads st.flushed
  · by_cases hs : t * 1024 * 1024 ≤ sz st.reads
    · simp [recordBoundary, hc, hs]
    · simp [recordBoundary, hc, hs]
  · simp [recordBoundary, hc]

set_option maxHeartbeats 800000 in
/-- The record-boundary check only ever changes the flush bookkeeping:
`reads`, `bases`, `line_mod`, lines written and the stop flag survive. -/
theorem rb_flushed_only (mode : Mode) (t K : Nat) (cap : Option Nat)
    (sz : Nat → Nat) (st : SubState) :
    ∃ f, (recordBoundary mode t K cap sz st).1 = { st with flushed := f } := by
  obtain _ | capB := cap <;>
    · unfold recordBoundary
      dsimp only
      split_ifs <;> first
        | exact ⟨st.flushed, rfl⟩
        | exact ⟨st.reads, rfl⟩

/-- The emitted record count never decreases while the loop runs. -/
theorem subLoop_reads_le (mode : Mode) (t K : Nat) (cap : Option Nat) (sz : Nat → Nat) :
    ∀ (rest : List Nat) (st : SubState),
      st.reads ≤ (subLoop mode t K cap sz rest st).reads := by
  intro rest
  induction rest with
  | nil => intro st; exact Nat.le.refl
  | cons l rest ih =>
    intro st
    simp only [subLoop]
    by_cases h4 : (st.lineMod + 1) % 4 = 0
    · simp only [h4, if_pos]
      norm_num
      obtain ⟨f, hf⟩ := rb_flushed_only mode t K cap sz
        ⟨st.reads + 1, st.bases, 0, st.linesOut + 1, st.flushed, st.stopped⟩
      split
      · rw [hf]
        exact Nat.le_succ _
      · refine le_trans ?_ (ih _)
        rw [hf]
        exact Nat.le_succ _
    · rw [if_neg h4]
      exact ih ⟨st.reads, if (st.lineMod + 1) % 4 = 2 then st.bases + l else st.bases,
        (st.lineMod + 1) % 4, st.linesOut + 1, st.flushed, st.stopped⟩

/-- On a record-aligned suffix, `READS` mode emits exactly
`min target (records available)` further records, provided the target has
not been reached yet. -/
theorem subLoop_reads_min_aux (R K : Nat) (sz : Nat → Nat) :
    ∀ n (rest : List Nat), rest.length = 4 * n →
      ∀ st : SubState, st.lineMod = 0 → st.reads < R →
        (subLoop Mode.READS R K none sz rest st).reads = min R (st.reads + n) := by
  intro n
  induction n with
  | zero =>
    intro rest hlen st h0 hr
    obtain rfl : rest = [] := List.length_eq_zero.mp (by omega)
    show st.reads = min R (st.reads + 0)
    omega
  | succ n ih =>
    intro rest hlen st h0 hr
    rcases rest with _ | ⟨a, _ | ⟨b, _ | ⟨c, _ | ⟨d, rest'⟩⟩⟩⟩ <;>
      simp only [List.length] at hlen <;> try omega
    rw [subLoop_chunk Mode.READS R K none sz a b c d rest' st h0, rb_reads_none]
    by_cases hstop : R ≤ st.reads + 1
    · rw [if_pos (decide_eq_true hstop)]
      show st.reads + 1 = min R (st.reads + (n + 1))
      omega
    · rw [if_neg (by simp [hstop])]
      rw [ih rest' (by omega) ⟨st.reads + 1, st.bases + b, 0, st.linesOut + 4,
        st.flushed, st.stopped⟩ rfl (by dsimp only; omega)]
      show min R (st.reads + 1 + n) = min R (st.reads + (n + 1))
      omega

/-- On a record-aligned suffix starting at a record boundary with a
record-aligned number of lines already written, the loop always leaves a
record-aligned number of written lines, for every mode, target, check
interval, hard cap and size oracle. -/
theorem subLoop_linesOut_mod4_aux (mode : Mode) (t K : Nat) (cap : Option Nat)
    (sz : Nat → Nat) :
    ∀ n (rest : List Nat), rest.length = 4 * n →
      ∀ st : SubState, st.lineMod = 0 → st.linesOut % 4 = 0 →
        (subLoop mode t K cap sz rest st).linesOut % 4 = 0 := by
  intro n
  induction n with
  | zero =>
    intro rest hlen st h0 hlo
    obtain rfl : rest = [] := List.length_eq_zero.mp (by omega)
    exact hlo
  | succ n ih =>
    intro rest hlen st h0 hlo
    rcases rest with _ | ⟨a, _ | ⟨b, _ | ⟨c, _ | ⟨d, rest'⟩⟩⟩⟩ <;>
      simp only [List.length] at hlen <;> try omega
    rw [subLoop_chunk mode t K cap sz a b c d rest' st h0]
    obtain ⟨f, hf⟩ := rb_flushed_only mode t K cap sz
      ⟨st.reads + 1, st.bases + b, 0, st.linesOut + 4, st.flushed, st.stopped⟩
    split
    · rw [hf]
      show (st.linesOut + 4) % 4 = 0
      omega
    · rw [hf]
      refine ih rest' (by omega) _ rfl ?_
      show (st.linesOut + 4) % 4 = 0
      omega

/-- `READS` mode emits exactly `min target (records available)` records
on an aligned stream, for every positive target. -/
theorem streamSubsample_reads_min (R K : Nat) (sz : Nat → Nat) (lines : List Nat)
    (h4 : lines.length % 4 = 0) (hR : 1 ≤ R) :
    (streamSubsample Mode.READS R K none sz lines).reads = min R (lines.length / 4) := by
  have h := subLoop_reads_min_aux R K sz (lines.length / 4) lines (by omega)
    ⟨0, 0, 0, 0, 0, false⟩ rfl (by show 0 < R; omega)
  simpa [streamSubsample, initState] using h

/-- Any input holding at least one full record makes the subsampler emit
at least one record, whatever the mode and target: no stop decision is
taken before the first record boundary. -/
theorem streamSubsample_reads_pos (mode : Mode) (t K : Nat) (cap : Option Nat)
    (sz : Nat → Nat) (lines : List Nat) (h : 4 ≤ lines.length) :
    1 ≤ (streamSubsample mode t K cap sz lines).reads := by
  rcases lines with _ | ⟨a, _ | ⟨b, _ | ⟨c, _ | ⟨d, rest⟩⟩⟩⟩ <;>
    simp only [List.length] at h <;> try omega
  show 1 ≤ (subLoop mode t K cap sz (a :: b :: c :: d :: rest) ⟨0, 0, 0, 0, 0, false⟩).reads
  rw [subLoop_chunk mode t K cap sz a b c d rest ⟨0, 0, 0, 0, 0, false⟩ rfl]
  obtain ⟨f, hf⟩ := rb_flushed_only mode t K cap sz ⟨0 + 1, 0 + b, 0, 0 + 4, 0, false⟩
  split
  · rw [hf]
  · rw [hf]
    exact subLoop_reads_le mode t K cap sz rest ⟨0 + 1, 0 + b, 0, 0 + 4, f, false⟩

/-! ### Claim C1 — RECORDS-target semantics of `subsample` -/

/-- C1 (counterexample): the claim asserts that `R = 0` emits zero
records, but on a valid one-record stream `stream_subsample_to_gz` with
`mode="READS", target_val=0` emits one full record, because the target is
only compared after a record's 4th line has been written
(`reads >= target_val` with `reads = 1 ≥ 0`). -/
theorem C1_zero_target_counterexample :
    (streamSubsample Mode.READS 0 2000 none (fun _ => 0) [5, 100, 1, 100]).reads = 1 ∧
    ([5, 100, 1, 100] : List Nat).length / 4 = 1 ∧ (0 : Nat) ≤ 1 ∧ (1 : Nat) ≠ 0 := by
  decide

/-- C1 (amended): for every valid FASTQ stream (line count divisible
by 4) and every positive record target `R`, `stream_subsample_to_gz` in
`READS` mode emits exactly `min R (records available)` records — exactly
`R` when `R` is at most the total, and the whole stream when `R` exceeds
it, returning normally in both cases.  At `R = 0` the loop still emits
one record when one exists, since the target is only checked after a
record completes. -/
theorem C1_records_emit_min (R K : Nat) (sz : Nat → Nat) (lines : List Nat)
    (h4 : lines.length % 4 = 0) (hR : 1 ≤ R) :
    (streamSubsample Mode.READS R K none sz lines).reads = min R (lines.length / 4) :=
  streamSubsample_reads_min R K sz lines h4 hR

/-- C1 (witness): both hypotheses of `C1_records_emit_min` hold at a
concrete input and the conclusion evaluates there: a 3-record stream with
target 2 emits exactly 2 records. -/
theorem C1_witness :
    (([5, 100, 1, 100, 5, 100, 1, 100, 5, 100, 1, 100] : List Nat).length % 4 = 0 ∧
      1 ≤ 2) ∧
    (streamSubsample Mode.READS 2 2000 none (fun _ => 0)
      [5, 100, 1, 100, 5, 100, 1, 100, 5, 100, 1, 100]).reads = min 2 3 :=
  ⟨⟨by decide, by decide⟩, by
    have h := C1_records_emit_min 2 2000 (fun _ => 0)
      [5, 100, 1, 100, 5, 100, 1, 100, 5, 100, 1, 100] (by decide) (by decide)
    simpa using h⟩

/-! ### Claim C3 — output is always record-aligned -/

/-- C3: for every mode, target, check interval, optional hard cap, size
oracle and valid (4-line-aligned) input stream, the number of lines the
subsampler writes is divisible by 4: every stop decision, in every mode,
is taken only immediately after a record's 4th line has been written, and
stream exhaustion on an aligned stream also ends at a boundary. -/
theorem C3_output_record_aligned (mode : Mode) (target K : Nat) (cap : Option Nat)
    (sz : Nat → Nat) (lines : List Nat) (h4 : lines.length % 4 = 0) :
    (streamSubsample mode target K cap sz lines).linesOut % 4 = 0 :=
  subLoop_linesOut_mod4_aux mode target K cap sz (lines.length / 4) lines (by omega)
    ⟨0, 0, 0, 0, 0, false⟩ rfl rfl

/-- C3 (witness): the alignment hypothesis holds at a concrete MB-mode
run with a hard cap, and the conclusion evaluates there. -/
theorem C3_witness :
    (([5, 100, 1, 100, 5, 100, 1, 100] : List Nat).length % 4 = 0) ∧
    (streamSubsample Mode.MB 1 2 (some 1) (fun n => 600000 * n)
      [5, 100, 1, 100, 5, 100, 1, 100]).linesOut % 4 = 0 :=
  ⟨by decide, by
    have h := C3_output_record_aligned Mode.MB 1 2 (some 1) (fun n => 600000 * n)
      [5, 100, 1, 100, 5, 100, 1, 100] (by decide)
    simpa using h⟩

/-! ### Claim C2 — paired outputs have equal record counts -/

/-- C2 (counterexample): with mate 1 holding 5 records and mate 2 only
1, the paired flow (here in the probe-failure combination) emits 5
records for mate 1 but mate 2 exhausts after 1, so the two outputs are
not record-count-equal even though both mates have at least one
record. -/
theorem C2_unequal_mates_counterexample :
    4 ≤ ([5, 100, 1, 100, 5, 100, 1, 100, 5, 100, 1, 100, 5, 100, 1, 100,
      5, 100, 1, 100] : List Nat).length ∧
    4 ≤ ([5, 100, 1, 100] : List Nat).length ∧
    (fetchPairedShortReads none (some 100) 1000
      [5, 100, 1, 100, 5, 100, 1, 100, 5, 100, 1, 100, 5, 100, 1, 100, 5, 100, 1, 100]
      [5, 100, 1, 100] 2000 (fun _ => 0) (fun _ => 0)).reads1 = 5 ∧
    (fetchPairedShortReads none (some 100) 1000
      [5, 100, 1, 100, 5, 100, 1, 100, 5, 100, 1, 100, 5, 100, 1, 100, 5, 100, 1, 100]
      [5, 100, 1, 100] 2000 (fun _ => 0) (fun _ => 0)).reads2 = 1 ∧
    (5 : Nat) ≠ 1 := by
  decide

/-- C2 (amended): the paired flow yields equal record counts, for every
combination of probe success and failure, whenever mate 1 holds at least
one record and mate 2 holds at least as many records as mate 1 actually
emits (in particular whenever both mates hold equally many records) —
mate 2 is synchronized to mate 1's actual emitted count, and that target
is reachable exactly when mate 2's stream is long enough. -/
theorem C2_pair_sync (p1 p2 : Option ℚ) (T : Nat) (l1 l2 : List Nat) (K : Nat)
    (sz1 sz2 : Nat → Nat) (h1 : 4 ≤ l1.length) (h2 : l2.length % 4 = 0)
    (hle : (fetchPairedShortReads p1 p2 T l1 l2 K sz1 sz2).reads1 ≤ l2.length / 4) :
    (fetchPairedShortReads p1 p2 T l1 l2 K sz1 sz2).reads2 =
      (fetchPairedShortReads p1 p2 T l1 l2 K sz1 sz2).reads1 := by
  by_cases hc : probeFalsy p1 = true ∨ probeFalsy p2 = true ∨ p1.getD 0 + p2.getD 0 ≤ 0
  · simp only [fetchPairedShortReads, if_pos hc] at hle ⊢
    have hpos := streamSubsample_reads_pos Mode.BASES (T / 2) K none sz1 l1 h1
    rw [streamSubsample_reads_min _ K sz2 l2 h2 hpos]
    omega
  · simp only [fetchPairedShortReads, if_neg hc] at hle ⊢
    have hpos := streamSubsample_reads_pos Mode.READS
      ((⌈(T : ℚ) / (p1.getD 0 + p2.getD 0)⌉).toNat) K none sz1 l1 h1
    rw [streamSubsample_reads_min _ K sz2 l2 h2 hpos]
    omega

/-- C2 (witness): the hypotheses of `C2_pair_sync` hold at a concrete
pair of equal-length mates and the claimed equality follows there. -/
theorem C2_witness :
    (fetchPairedShortReads none (some 100) 1000
      [5, 100, 1, 100, 5, 100, 1, 100, 5, 100, 1, 100, 5, 100, 1, 100, 5, 100, 1, 100]
      [5, 100, 1, 100, 5, 100, 1, 100, 5, 100, 1, 100, 5, 100, 1, 100, 5, 100, 1, 100]
      2000 (fun _ => 0) (fun _ => 0)).reads2 =
    (fetchPairedShortReads none (some 100) 1000
      [5, 100, 1, 100, 5, 100, 1, 100, 5, 100, 1, 100, 5, 100, 1, 100, 5, 100, 1, 100]
      [5, 100, 1, 100, 5, 100, 1, 100, 5, 100, 1, 100, 5, 100, 1, 100, 5, 100, 1, 100]
      2000 (fun _ => 0) (fun _ => 0)).reads1 :=
  C2_pair_sync none (some 100) 1000
    [5, 100, 1, 100, 5, 100, 1, 100, 5, 100, 1, 100, 5, 100, 1, 100, 5, 100, 1, 100]
    [5, 100, 1, 100, 5, 100, 1, 100, 5, 100, 1, 100, 5, 100, 1, 100, 5, 100, 1, 100]
    2000 (fun _ => 0) (fun _ => 0) (by decide) (by decide) (by decide)

/-! ### Claim C7 — mate-1 target selection -/

/-- C7 (counterexample): a probe result of `0.0` is a returned mean
whose sum with the other mean is positive, yet the code's truthiness
test `if not mean_r1 or ...` treats it as unavailable and takes the
BASES fallback, not the RECORDS branch the claim requires. -/
theorem C7_zero_mean_counterexample :
    (fetchPairedShortReads (some 0) (some 300) 1000 [5, 100, 1, 100]
      [5, 100, 1, 100] 2000 (fun _ => 0) (fun _ => 0)).mate1Mode = Mode.BASES ∧
    Mode.BASES ≠ Mode.READS ∧ (0 : ℚ) + 300 > 0 :=
  ⟨by decide, by decide, by norm_num⟩

/-- C7 (amended): when both probes return a nonzero mean whose sum is
positive, mate 1 is downloaded with
`RECORDS = ceil(total_base_target / (mean1 + mean2))`; when either probe
is unavailable (`None` — and likewise for a `0.0` mean, which Python
truthiness also treats as unavailable) mate 1 is downloaded with
`BASES = total_base_target / 2`; in every case mate 2 is downloaded with
`RECORDS` equal to mate 1's actually emitted record count. -/
theorem C7_target_selection (p1 p2 : Option ℚ) (T : Nat) (l1 l2 : List Nat) (K : Nat)
    (sz1 sz2 : Nat → Nat) :
    (∀ m1 m2, p1 = some m1 → p2 = some m2 → m1 ≠ 0 → m2 ≠ 0 → 0 < m1 + m2 →
      (fetchPairedShortReads p1 p2 T l1 l2 K sz1 sz2).mate1Mode = Mode.READS ∧
      (fetchPairedShortReads p1 p2 T l1 l2 K sz1 sz2).mate1Target =
        (⌈(T : ℚ) / (m1 + m2)⌉).toNat) ∧
    ((p1 = none ∨ p2 = none) →
      (fetchPairedShortReads p1 p2 T l1 l2 K sz1 sz2).mate1Mode = Mode.BASES ∧
      (fetchPairedShortReads p1 p2 T l1 l2 K sz1 sz2).mate1Target = T / 2) ∧
    (fetchPairedShortReads p1 p2 T l1 l2 K sz1 sz2).reads2 =
      (streamSubsample Mode.READS (fetchPairedShortReads p1 p2 T l1 l2 K sz1 sz2).reads1
        K none sz2 l2).reads := by
  refine ⟨?_, ?_, ?_⟩
  · intro m1 m2 hp1 hp2 hm1 hm2 hsum
    subst hp1; subst hp2
    have hns : ¬(m1 + m2 ≤ 0) := not_le.mpr hsum
    simp [fetchPairedShortReads, probeFalsy, hm1, hm2, hns]
  · intro hnone
    have hc : probeFalsy p1 = true ∨ probeFalsy p2 = true ∨ p1.getD 0 + p2.getD 0 ≤ 0 := by
      rcases hnone with h | h <;> subst h <;> simp [probeFalsy]
    simp [fetchPairedShortReads, if_pos hc]
  · by_cases hc : probeFalsy p1 = true ∨ probeFalsy p2 = true ∨ p1.getD 0 + p2.getD 0 ≤ 0
    · simp only [fetchPairedShortReads, if_pos hc]
    · simp only [fetchPairedShortReads, if_neg hc]

/-- C7 (witness): the RECORDS-branch hypotheses hold at concrete probe
means 100 and 100 with total target 1000, and the branch conclusion
follows there. -/
theorem C7_witness :
    (fetchPairedShortReads (some 100) (some 100) 1000 [5, 100, 1, 100]
      [5, 100, 1, 100] 2000 (fun _ => 0) (fun _ => 0)).mate1Mode = Mode.READS ∧
    (fetchPairedShortReads (some 100) (some 100) 1000 [5, 100, 1, 100]
      [5, 100, 1, 100] 2000 (fun _ => 0) (fun _ => 0)).mate1Target =
      (⌈(1000 : ℚ) / (100 + 100)⌉).toNat :=
  (C7_target_selection (some 100) (some 100) 1000 [5, 100, 1, 100] [5, 100, 1, 100]
    2000 (fun _ => 0) (fun _ => 0)).1 100 100 rfl rfl (by norm_num) (by norm_num)
    (by norm_num)

/-! ### Claim C5 — transport retry policy -/

/-- C5 (counterexample): a 404 — not in the retried status set — is
claimed to be terminal on first occurrence with no retry, but
`raise_for_status`'s `HTTPError` is a `requests.RequestException`, so the
`except` branch retries it: with responses 404 then 200 the transport
returns the second response successfully. -/
theorem C5_counterexample :
    httpGetWithRetries (fun a => if a = 1 then HttpResp.status 404 else HttpResp.status 200) 4 =
      Except.ok 200 ∧
    ¬retryStatus 404 = true ∧ (404 : Nat) ≥ 400 :=
  ⟨rfl, by decide, by decide⟩

/-- C5 (amended): the transport retries on connection failures, on the
listed busy statuses 429/500/502/503/504 via the explicit branch, and on
every other 4xx/5xx status as well, because `raise_for_status` raises an
`HTTPError` that the `except requests.RequestException` branch catches
and retries while attempts remain; a status below 400 (outside the retry
set) is returned as success.  Only exhausting the attempt budget is
terminal. -/
theorem C5_retry_semantics (responses : Nat → HttpResp) (retries c : Nat)
    (h1 : responses 1 = HttpResp.status c) :
    (c < 400 → httpGetWithRetries responses retries = Except.ok c) ∧
    (400 ≤ c → c < 600 → 1 ≤ retries →
      httpGetWithRetries responses retries = httpGo responses retries 2 retries) := by
  constructor
  · intro hc
    have hrs : retryStatus c = false := by
      simp only [retryStatus, decide_eq_false_iff_not]
      omega
    unfold httpGetWithRetries
    simp only [httpGo, h1, hrs]
    rw [if_neg (by omega : ¬(400 ≤ c ∧ c < 600))]
    simp [hc]
  · intro hc1 hc2 hr
    unfold httpGetWithRetries
    by_cases hrs : retryStatus c = true
    · simp only [httpGo, h1, hrs]
      rfl
    · simp only [httpGo, h1]
      rw [Bool.not_eq_true] at hrs
      rw [hrs]
      simp only [Bool.false_eq_true, if_false]
      rw [if_pos ⟨hc1, hc2⟩, if_pos hr]

/-- C5 (witness): the hypotheses of `C5_retry_semantics` hold for a
first response of 404 with 4 retries, and a second attempt is indeed
consulted. -/
theorem C5_witness :
    httpGetWithRetries (fun a => if a = 1 then HttpResp.status 404 else HttpResp.status 200) 4 =
      httpGo (fun a => if a = 1 then HttpResp.status 404 else HttpResp.status 200) 4 2 4 :=
  (C5_retry_semantics (fun a => if a = 1 then HttpResp.status 404 else HttpResp.status 200)
    4 404 rfl).2 (by decide) (by decide) (by decide)

/-! ### Claim C9 — length prober semantics -/

/-- Unfolding of the probe counting loop across one complete 4-line
record at a record boundary. -/
theorem probeLoop_chunk (pr : Nat) (a b c d : Nat) (rest : List Nat) (r bb : Nat) :
    probeLoop pr (a :: b :: c :: d :: rest) r bb 0 =
      (if pr ≤ r + 1 then (r + 1, bb + b) else probeLoop pr rest (r + 1) (bb + b) 0) := by
  simp only [probeLoop]
  norm_num

/-- On an aligned stream, the probe loop reads
`min (records wanted) (records available)` further records and
accumulates exactly their sequence-line lengths. -/
theorem probeLoop_aligned (pr : Nat) :
    ∀ n (p : List Nat), p.length = 4 * n → ∀ r bb, r < pr →
      probeLoop pr p r bb 0 =
        (r + min (pr - r) n, bb + seqSum (p.take (4 * min (pr - r) n))) := by
  intro n
  induction n with
  | zero =>
    intro p hlen r bb hr
    obtain rfl : p = [] := List.length_eq_zero.mp (by omega)
    simp [probeLoop, seqSum]
  | succ n ih =>
    intro p hlen r bb hr
    rcases p with _ | ⟨a, _ | ⟨b, _ | ⟨c, _ | ⟨d, rest⟩⟩⟩⟩ <;>
      simp only [List.length] at hlen <;> try omega
    rw [probeLoop_chunk]
    by_cases hstop : pr ≤ r + 1
    · rw [if_pos hstop]
      have hm : min (pr - r) (n + 1) = 1 := by omega
      rw [hm]
      simp [seqSum]
    · rw [if_neg hstop]
      rw [ih rest (by omega) (r + 1) (bb + b) (by omega)]
      have hm : min (pr - r) (n + 1) = min (pr - (r + 1)) n + 1 := by omega
      rw [hm]
      have ht : (a :: b :: c :: d :: rest).take (4 * (min (pr - (r + 1)) n + 1)) =
          a :: b :: c :: d :: rest.take (4 * min (pr - (r + 1)) n) := by
        have h4 : 4 * (min (pr - (r + 1)) n + 1) = 4 * min (pr - (r + 1)) n + 4 := by ring
        rw [h4]
        exact rfl
      rw [ht]
      simp [seqSum]
      omega

/-- C9 (counterexample): the claim says the prober "stops after
max_records complete records or at end of stream — whichever comes
first" and "returns Unavailable exactly when zero complete records were
read"; with `max_records = 0` that entails reading zero records and
returning Unavailable, but the code only tests `reads >= probe_reads`
after a record completes, so it reads one record and returns a mean. -/
theorem C9_zero_maxrecords_counterexample :
    (probeMeanReadLength [[5, 150, 1, 150]] 0).isSome = true := by
  decide

/-- C9 (amended): for `max_records ≥ 1`, the prober reads only the first
file part of a multi-part link list (the others are irrelevant), reads
exactly `min max_records (records available)` complete records, returns
their total sequence-line bases divided by the records read, and returns
Unavailable (`None`) exactly when that count is zero; with
`max_records = 0` it still reads one record when one exists. -/
theorem C9_probe_first_part_mean (p : List Nat) (rest : List (List Nat)) (pr : Nat)
    (hpr : 1 ≤ pr) (hp : p.length % 4 = 0) :
    (∀ rest2, probeMeanReadLength (p :: rest) pr = probeMeanReadLength (p :: rest2) pr) ∧
    probeMeanReadLength (p :: rest) pr =
      (if min pr (p.length / 4) = 0 then none
       else some ((seqSum (p.take (4 * min pr (p.length / 4))) : ℚ) /
         ((min pr (p.length / 4) : ℕ) : ℚ))) := by
  constructor
  · intro rest2
    rfl
  · show (if (probeLoop pr p 0 0 0).1 = 0 then none
      else some (((probeLoop pr p 0 0 0).2 : ℚ) / ((probeLoop pr p 0 0 0).1 : ℚ))) = _
    rw [probeLoop_aligned pr (p.length / 4) p (by omega) 0 0 (by omega)]
    simp only [Nat.sub_zero, Nat.zero_add]

/-- C9 (witness): the hypotheses of `C9_probe_first_part_mean` hold at a
concrete one-record part with `max_records = 1` and the characterization
evaluates there. -/
theorem C9_witness :
    probeMeanReadLength [[5, 150, 1, 150]] 1 =
      (if min 1 (([5, 150, 1, 150] : List Nat).length / 4) = 0 then none
       else some ((seqSum (([5, 150, 1, 150] : List Nat).take
           (4 * min 1 (([5, 150, 1, 150] : List Nat).length / 4))) : ℚ) /
         ((min 1 (([5, 150, 1, 150] : List Nat).length / 4) : ℕ) : ℚ))) :=
  (C9_probe_first_part_mean [5, 150, 1, 150] [] 1 (by decide) (by decide)).2

/-! ### Claim C4 — temporary file, atomic rename, cleanup -/

/-- C4 (counterexample): on a stream error the code does remove the
temporary file and leaves `output_path` untouched, but it does NOT
surface the error: the `except` branch returns `(0, 0, 0.0)` normally —
the same value a successful run on an empty stream returns after its
rename — so the caller cannot tell failure from a tiny download. -/
theorem C4_counterexample :
    errOccurs Mode.READS 5 2000 none (fun _ => 0) [5, 100, 1, 100] (some 2) = true ∧
    streamSubsampleFS Mode.READS 5 2000 none (fun _ => 0) [5, 100, 1, 100] (some 2)
      ⟨some [9], some [7]⟩ = (⟨some [9], none⟩, (0, 0, 0)) ∧
    streamSubsampleFS Mode.READS 5 2000 none (fun _ => 0) [] none
      ⟨some [9], some [7]⟩ = (⟨some [], none⟩, (0, 0, 0)) := by
  decide

/-- C4 (amended): all writes go to the temporary path and it never
survives an invocation: on success it is renamed onto `output_path` in
one step (so `output_path` only ever holds a prefix of the source
written entirely by this run), and on a stream error it is removed,
`output_path` is left exactly as it was, and the function returns the
sentinel `(0, 0, 0.0)` normally instead of surfacing the error. -/
theorem C4_temp_cleanup (mode : Mode) (target K : Nat) (cap : Option Nat)
    (sz : Nat → Nat) (lines : List Nat) (errAfter : Option Nat) (fs : FS) :
    (streamSubsampleFS mode target K cap sz lines errAfter fs).1.tmp = none ∧
    (errOccurs mode target K cap sz lines errAfter = true →
      (streamSubsampleFS mode target K cap sz lines errAfter fs).1.out = fs.out ∧
      (streamSubsampleFS mode target K cap sz lines errAfter fs).2 = (0, 0, 0)) ∧
    (errOccurs mode target K cap sz lines errAfter = false →
      ∃ nn, (streamSubsampleFS mode target K cap sz lines errAfter fs).1.out =
        some (lines.take nn)) := by
  obtain _ | e := errAfter
  · refine ⟨rfl, ?_, ?_⟩
    · intro h
      simp [errOccurs] at h
    · intro _
      exact ⟨_, rfl⟩
  · by_cases hs : (subLoop mode target K cap sz (lines.take e) initState).stopped = true
    · refine ⟨?_, ?_, ?_⟩
      · simp [streamSubsampleFS, hs]
      · intro h
        simp [errOccurs, hs] at h
      · intro _
        refine ⟨(subLoop mode target K cap sz (lines.take e) initState).linesOut, ?_⟩
        simp [streamSubsampleFS, hs]
    · rw [Bool.not_eq_true] at hs
      refine ⟨?_, ?_, ?_⟩
      · simp [streamSubsampleFS, hs]
      · intro _
        constructor
        · simp [streamSubsampleFS, hs]
        · simp [streamSubsampleFS, hs]
      · intro h
        simp [errOccurs, hs] at h

/-- C4 (witness): the error hypothesis of `C4_temp_cleanup` holds at a
concrete interrupted run, and the cleanup conclusions follow there. -/
theorem C4_witness :
    (streamSubsampleFS Mode.READS 5 2000 none (fun _ => 0) [5, 100, 1, 100] (some 2)
      ⟨some [9], some [7]⟩).1.out = (⟨some [9], some [7]⟩ : FS).out ∧
    (streamSubsampleFS Mode.READS 5 2000 none (fun _ => 0) [5, 100, 1, 100] (some 2)
      ⟨some [9], some [7]⟩).2 = (0, 0, 0) :=
  (C4_temp_cleanup Mode.READS 5 2000 none (fun _ => 0) [5, 100, 1, 100] (some 2)
    ⟨some [9], some [7]⟩).2.1 (by decide)

/-! ### Claim C6 — MB-mode check discipline and overshoot -/

/-- Once the flushed on-disk size has crossed 90% of the MB target while
the current size is still below the target, every further record is
checked, so if the loop stops before exhausting the (aligned) suffix it
stops at the first record whose flushed size reaches the target. -/
theorem subLoop_mb_rapid (t K : Nat) (sz : Nat → Nat)
    (hmono : ∀ i j, i ≤ j → sz i ≤ sz j) :
    ∀ n (rest : List Nat), rest.length = 4 * n →
      ∀ st : SubState, st.lineMod = 0 → st.flushed ≤ st.reads →
        9 * (t * 1024 * 1024) ≤ 10 * sz st.flushed →
        sz st.reads < t * 1024 * 1024 →
        (subLoop Mode.MB t K none sz rest st).linesOut = st.linesOut + rest.length ∨
        (t * 1024 * 1024 ≤ sz ((subLoop Mode.MB t K none sz rest st).reads) ∧
          sz ((subLoop Mode.MB t K none sz rest st).reads - 1) < t * 1024 * 1024) := by
  intro n
  induction n with
  | zero =>
    intro rest hlen st h0 hfr hrapid hsz
    obtain rfl : rest = [] := List.length_eq_zero.mp (by omega)
    left
    rfl
  | succ n ih =>
    intro rest hlen st h0 hfr hrapid hsz
    rcases rest with _ | ⟨a, _ | ⟨b, _ | ⟨c, _ | ⟨d, rest'⟩⟩⟩⟩ <;>
      simp only [List.length] at hlen <;> try omega
    rw [subLoop_chunk Mode.MB t K none sz a b c d rest' st h0, rb_mb_none]
    have hchk : shouldCheckNow Mode.MB (t * 1024 * 1024) K sz (st.reads + 1) st.flushed = true := by
      simp only [shouldCheckNow]
      rw [if_neg (by simp), if_neg (by omega), if_pos hrapid]
    dsimp only
    rw [hchk]
    simp only [if_true]
    by_cases hstop : t * 1024 * 1024 ≤ sz (st.reads + 1)
    · rw [if_pos hstop]
      dsimp only
      right
      exact ⟨hstop, hsz⟩
    · rw [if_neg hstop]
      dsimp only
      simp only [Bool.false_eq_true, if_false]
      have hres := ih rest' (by omega)
        ⟨st.reads + 1, st.bases + b, 0, st.linesOut + 4, st.reads + 1, st.stopped⟩
        rfl (by dsimp only; omega)
        (by
          dsimp only
          calc 9 * (t * 1024 * 1024) ≤ 10 * sz st.flushed := hrapid
            _ ≤ 10 * sz (st.reads + 1) := by
              have := hmono st.flushed (st.reads + 1) (by omega)
              omega)
        (by dsimp only; omega)
      rcases hres with hres | hres
      · left
        rw [hres]
        simp only [List.length_cons]
        omega
      · right
        exact hres

/-- C6 (amended): in MB mode (monotone on-disk size), (a) for any
record already written, a stop-check happens exactly when the last
flushed size has reached 90% of the byte target or the record index is a
multiple of the check interval `K` — every `K` records below 90%, every
record above; and (b) from any record boundary at which the flushed size
has crossed 90% of target while the current size is still below target,
if the loop then stops before exhausting the stream, the final flushed
size is at least the target and the size one record earlier was still
below it, so the overshoot is smaller than the final record's compressed
contribution.  (When the stream exhausts first the final size may remain
below target, and a `K`-record check may already see the target
exceeded — those are the cases the counterexample carves out.) -/
theorem C6_mb_check_discipline_and_overshoot (t K : Nat) (sz : Nat → Nat)
    (hmono : ∀ i j, i ≤ j → sz i ≤ sz j) :
    (∀ reads flushed, 1 ≤ reads →
      (shouldCheckNow Mode.MB (t * 1024 * 1024) K sz reads flushed = true ↔
        (9 * (t * 1024 * 1024) ≤ 10 * sz flushed ∨ reads % K = 0))) ∧
    (∀ (rest : List Nat) (st : SubState), rest.length % 4 = 0 → st.lineMod = 0 →
      st.flushed ≤ st.reads → 9 * (t * 1024 * 1024) ≤ 10 * sz st.flushed →
      sz st.reads < t * 1024 * 1024 →
      (subLoop Mode.MB t K none sz rest st).linesOut < st.linesOut + rest.length →
      t * 1024 * 1024 ≤ sz ((subLoop Mode.MB t K none sz rest st).reads) ∧
        sz ((subLoop Mode.MB t K none sz rest st).reads - 1) < t * 1024 * 1024) := by
  constructor
  · intro reads flushed hreads
    simp only [shouldCheckNow]
    rw [if_neg (by simp), if_neg (by omega)]
    by_cases hrapid : 9 * (t * 1024 * 1024) ≤ 10 * sz flushed
    · rw [if_pos hrapid]
      simp [hrapid]
    · rw [if_neg hrapid]
      simp [hrapid]
  · intro rest st hlen h0 hfr hrapid hsz hlt
    rcases subLoop_mb_rapid t K sz hmono (rest.length / 4) rest (by omega) st h0 hfr
      hrapid hsz with h | h
    · omega
    · exact h

/-- C6 (witness): all hypotheses of
`C6_mb_check_discipline_and_overshoot` hold at a concrete rapid-phase
state with a linearly growing size, and the overshoot bound follows. -/
theorem C6_witness :
    1 * 1024 * 1024 ≤ 1000000 *
      ((subLoop Mode.MB 1 2 none (fun n => 1000000 * n)
        [5, 100, 1, 100, 5, 100, 1, 100] ⟨1, 100, 0, 4, 1, false⟩).reads) ∧
    1000000 * ((subLoop Mode.MB 1 2 none (fun n => 1000000 * n)
        [5, 100, 1, 100, 5, 100, 1, 100] ⟨1, 100, 0, 4, 1, false⟩).reads - 1) <
      1 * 1024 * 1024 :=
  (C6_mb_check_discipline_and_overshoot 1 2 (fun n => 1000000 * n)
    (fun i j h => Nat.mul_le_mul_left 1000000 h)).2
    [5, 100, 1, 100, 5, 100, 1, 100] ⟨1, 100, 0, 4, 1, false⟩
    (by decide) rfl (by decide) (by decide) (by decide) (by decide)

/-- C6 (counterexample): a run in which the `K`-record check (here at
record 2, `K = 2`) observes at least 90% of the MB target — 999000 of
1048576 bytes — but the stream then exhausts, finishing below target:
the claim's conclusion "the final output size is at least the target"
fails when the source runs out first. -/
theorem C6_exhaustion_counterexample :
    (streamSubsample Mode.MB 1 2 none
      (fun n => if n = 0 then 0 else if n = 1 then 900000 else 999000)
      [5, 100, 1, 100, 5, 100, 1, 100]).stopped = false ∧
    (streamSubsample Mode.MB 1 2 none
      (fun n => if n = 0 then 0 else if n = 1 then 900000 else 999000)
      [5, 100, 1, 100, 5, 100, 1, 100]).reads = 2 ∧
    (streamSubsample Mode.MB 1 2 none
      (fun n => if n = 0 then 0 else if n = 1 then 900000 else 999000)
      [5, 100, 1, 100, 5, 100, 1, 100]).flushed = 2 ∧
    2 % 2 = 0 ∧
    9 * (1 * 1024 * 1024) ≤ 10 * 999000 ∧
    999000 < 1 * 1024 * 1024 := by
  decide

/-! ### Claim C10 — mate assignment from a run's link list -/

/-- C10: mate assignment of `detect_r1_r2`.  Outside the two explicit
fallbacks, mate 1 is exactly the URLs carrying an R1-style marker
(`"_1.fastq"`, `"_r1"`, `".r1."` on the lowercased URL) and mate 2
exactly those carrying an R2-style marker and no R1 marker, in input
order; if either side is empty and there are exactly two URLs, the
lexicographically smaller URL becomes mate 1 and the larger mate 2; a
single URL with no R1 marker becomes mate 1 alone (single-end). -/
theorem C10_mate_detection (urls : List (List Char)) :
    (((urls.filter (fun u => hasR1Mark (u.map lowerChar))).isEmpty = false ∧
      (urls.filter (fun u => !hasR1Mark (u.map lowerChar) &&
        hasR2Mark (u.map lowerChar))).isEmpty = false) ∨ urls.length ≠ 2 →
     ((urls.filter (fun u => hasR1Mark (u.map lowerChar))).isEmpty = false ∨
       urls.length ≠ 1) →
      detectR1R2 urls =
        (urls.filter (fun u => hasR1Mark (u.map lowerChar)),
         urls.filter (fun u => !hasR1Mark (u.map lowerChar) &&
           hasR2Mark (u.map lowerChar)))) ∧
    (∀ a b, urls = [a, b] →
      (urls.filter (fun u => hasR1Mark (u.map lowerChar))).isEmpty = true ∨
        (urls.filter (fun u => !hasR1Mark (u.map lowerChar) &&
          hasR2Mark (u.map lowerChar))).isEmpty = true →
      detectR1R2 urls = (if lexLe a b then ([a], [b]) else ([b], [a]))) ∧
    (∀ a, urls = [a] → hasR1Mark (a.map lowerChar) = false →
      detectR1R2 urls = ([a], [])) := by
  refine ⟨?_, ?_, ?_⟩
  · intro hno1 hno2
    match urls, hno1, hno2 with
    | [], _, _ => rfl
    | [a], hno1, hno2 =>
      have hr1 : (([a] : List (List Char)).filter
          (fun u => hasR1Mark (u.map lowerChar))).isEmpty = false := by
        rcases hno2 with h | h
        · exact h
        · simp at h
      simp only [detectR1R2, hr1]
      rw [if_neg (by simp [hr1])]
    | [a, b], hno1, hno2 =>
      have hr : (([a, b] : List (List Char)).filter
            (fun u => hasR1Mark (u.map lowerChar))).isEmpty = false ∧
          (([a, b] : List (List Char)).filter (fun u => !hasR1Mark (u.map lowerChar) &&
            hasR2Mark (u.map lowerChar))).isEmpty = false := by
        rcases hno1 with h | h
        · exact h
        · simp at h
      simp only [detectR1R2]
      rw [if_neg (by simp [hr.1, hr.2])]
    | a :: b :: c :: rest, _, _ => rfl
  · intro a b hurls hempty
    subst hurls
    simp only [detectR1R2]
    rw [if_pos (by
      rcases hempty with h | h <;> simp [h])]
  · intro a hurls hr1
    subst hurls
    simp only [detectR1R2]
    rw [if_pos (by simp [hr1])]

/-- C10 (witness): the no-fallback hypotheses hold for a concrete
properly marked pair and the filter characterization follows there. -/
theorem C10_witness :
    detectR1R2 ["x_1.fastq.gz".toList, "x_2.fastq.gz".toList] =
      ((["x_1.fastq.gz".toList, "x_2.fastq.gz".toList] : List (List Char)).filter
        (fun u => hasR1Mark (u.map lowerChar)),
       (["x_1.fastq.gz".toList, "x_2.fastq.gz".toList] : List (List Char)).filter
        (fun u => !hasR1Mark (u.map lowerChar) && hasR2Mark (u.map lowerChar))) :=
  (C10_mate_detection ["x_1.fastq.gz".toList, "x_2.fastq.gz".toList]).1
    (by decide) (by decide)

/-! ### Claim C8 — organism-name matching -/

-- defining equations of the well-founded `pyWords`
theorem pyWords_nil : pyWords [] = [] := by
  simp [pyWords]

theorem pyWords_cons_ws (c : Char) (cs : List Char) (h : pyIsSpace c = true) :
    pyWords (c :: cs) = pyWords cs := by
  rw [pyWords, if_pos h]

theorem pyWords_cons_nonws (c : Char) (cs : List Char) (h : pyIsSpace c = false) :
    pyWords (c :: cs) =
      (c :: cs.takeWhile (fun x => !pyIsSpace x)) ::
        pyWords (cs.dropWhile (fun x => !pyIsSpace x)) := by
  rw [pyWords, if_neg (by simp [h])]

theorem pyWords_dropWhile (l : List Char) :
    pyWords (l.dropWhile pyIsSpace) = pyWords l := by
  induction l with
  | nil => rfl
  | cons c cs ih =>
    by_cases h : pyIsSpace c = true
    · rw [List.dropWhile_cons_of_pos h, pyWords_cons_ws c cs h, ih]
    · rw [List.dropWhile_cons_of_neg (by simp_all)]

theorem joinSpace_cons_ne (w : List Char) (ws : List (List Char)) (h : ws ≠ []) :
    joinSpace (w :: ws) = w ++ ' ' :: joinSpace ws := by
  obtain _ | ⟨w2, ws'⟩ := ws
  · exact absurd rfl h
  · rfl

theorem dropWhile_head_false (p : Char → Bool) :
    ∀ (l : List Char) c cs, l.dropWhile p = c :: cs → p c = false := by
  intro l
  induction l with
  | nil => intro c cs h; simp at h
  | cons a l' ih =>
    intro c cs h
    by_cases ha : p a = true
    · rw [List.dropWhile_cons_of_pos ha] at h
      exact ih c cs h
    · rw [List.dropWhile_cons_of_neg (by simp_all)] at h
      cases h
      simp_all

-- trimEndChars lemmas
theorem trimEnd_all_ws (y : List Char) (h : ∀ x ∈ y, pyIsSpace x = true) :
    trimEndChars y = [] := by
  induction y with
  | nil => rfl
  | cons c cs ih =>
    rw [trimEndChars]
    rw [ih (fun x hx => h x (List.mem_cons_of_mem c hx))]
    rw [if_pos (h c (List.mem_cons_self c _))]

theorem trimEnd_append_ws (x y : List Char) (h : ∀ a ∈ y, pyIsSpace a = true) :
    trimEndChars (x ++ y) = trimEndChars x := by
  induction x with
  | nil => simpa using trimEnd_all_ws y h
  | cons a x' ih =>
    show trimEndChars (a :: (x' ++ y)) = _
    rw [trimEndChars, ih, trimEndChars]

theorem trimEnd_all_nonws (l : List Char) (h : ∀ x ∈ l, pyIsSpace x = false) :
    trimEndChars l = l := by
  induction l with
  | nil => rfl
  | cons c cs ih =>
    rw [trimEndChars, ih (fun x hx => h x (List.mem_cons_of_mem c hx))]
    obtain _ | ⟨d, ds⟩ := cs
    · rw [if_neg (by simp [h c (List.mem_cons_self c _)])]
    · rfl

theorem trimEnd_cons_shape (c : Char) (cs : List Char) :
    trimEndChars (c :: cs) = [] ∨ ∃ r, trimEndChars (c :: cs) = c :: r := by
  rw [trimEndChars]
  rcases htr : trimEndChars cs with _ | ⟨d, ds⟩
  · by_cases h : pyIsSpace c = true
    · left; rw [if_pos h]
    · right; exact ⟨[], by rw [if_neg h]⟩
  · right; exact ⟨d :: ds, rfl⟩

theorem trimEnd_ne_nil (c : Char) (cs : List Char) (h : pyIsSpace c = false) :
    trimEndChars (c :: cs) ≠ [] := by
  rw [trimEndChars]
  obtain _ | ⟨d, ds⟩ := trimEndChars cs
  · rw [if_neg (by simp [h])]
    simp
  · simp

theorem trimEnd_append_ne (x y : List Char) (h : trimEndChars y ≠ []) :
    trimEndChars (x ++ y) = x ++ trimEndChars y := by
  induction x with
  | nil => rfl
  | cons a x' ih =>
    show trimEndChars (a :: (x' ++ y)) = _
    rw [trimEndChars, ih]
    rcases htr : x' ++ trimEndChars y with _ | ⟨d, ds⟩
    · exact absurd (List.append_eq_nil.mp htr).2 h
    · rw [List.cons_append, htr]

-- collapseRuns lemmas
theorem collapse_nonws_append (t z : List Char) (h : ∀ x ∈ t, pyIsSpace x = false) :
    collapseRuns false (t ++ z) = t ++ collapseRuns false z := by
  induction t with
  | nil => rfl
  | cons a t' ih =>
    show collapseRuns false (a :: (t' ++ z)) = _
    rw [collapseRuns, if_neg (by simp [h a (List.mem_cons_self a _)]),
      ih (fun x hx => h x (List.mem_cons_of_mem a hx))]
    rfl

theorem collapse_nonws (t : List Char) (h : ∀ x ∈ t, pyIsSpace x = false) :
    collapseRuns false t = t := by
  have h1 := collapse_nonws_append t [] h
  rw [List.append_nil] at h1
  rw [h1]
  show t ++ ([] : List Char) = t
  exact List.append_nil t

theorem collapse_true_ws_append (run z : List Char) (h : ∀ x ∈ run, pyIsSpace x = true) :
    collapseRuns true (run ++ z) = collapseRuns true z := by
  induction run with
  | nil => rfl
  | cons a run' ih =>
    show collapseRuns true (a :: (run' ++ z)) = _
    rw [collapseRuns, if_pos (h a (List.mem_cons_self a _))]
    exact ih (fun x hx => h x (List.mem_cons_of_mem a hx))

theorem collapse_true_eq_false (z : List Char)
    (h : z = [] ∨ ∃ w z2, z = w :: z2 ∧ pyIsSpace w = false) :
    collapseRuns true z = collapseRuns false z := by
  rcases h with rfl | ⟨w, z2, rfl, hw⟩
  · rfl
  · rw [collapseRuns, collapseRuns, if_neg (by simp [hw]), if_neg (by simp [hw])]

theorem collapse_ws_run (run z : List Char) (hrun : ∀ x ∈ run, pyIsSpace x = true)
    (hne : run ≠ []) (hz : z = [] ∨ ∃ w z2, z = w :: z2 ∧ pyIsSpace w = false) :
    collapseRuns false (run ++ z) = ' ' :: collapseRuns false z := by
  obtain _ | ⟨a, run'⟩ := run
  · exact absurd rfl hne
  · show collapseRuns false (a :: (run' ++ z)) = _
    rw [collapseRuns, if_pos (hrun a (List.mem_cons_self a _))]
    rw [collapse_true_ws_append run' z (fun x hx => hrun x (List.mem_cons_of_mem a hx))]
    rw [collapse_true_eq_false z hz]
    simp

/-- Core refinement: joining the whitespace-separated words of `m` with
single spaces equals collapsing whitespace runs after trimming. -/
theorem words_collapse_core :
    ∀ m : List Char, joinSpace (pyWords m) =
      collapseRuns false (trimEndChars (m.dropWhile pyIsSpace)) := by
  have H : ∀ n (m : List Char), m.length ≤ n →
      joinSpace (pyWords m) = collapseRuns false (trimEndChars (m.dropWhile pyIsSpace)) := by
    intro n
    induction n with
    | zero =>
      intro m hm
      obtain rfl : m = [] := List.length_eq_zero.mp (by omega)
      rw [pyWords_nil]
      rfl
    | succ n ih =>
      intro m hm
      match m with
      | [] =>
        rw [pyWords_nil]
        rfl
      | c :: cs =>
        by_cases hc : pyIsSpace c = true
        · rw [pyWords_cons_ws c cs hc, List.dropWhile_cons_of_pos hc]
          exact ih cs (by simp at hm; omega)
        · have hc' : pyIsSpace c = false := by simp_all
          rw [pyWords_cons_nonws c cs hc', List.dropWhile_cons_of_neg (by simp [hc'])]
          have htmem : ∀ x ∈ cs.takeWhile (fun x => !pyIsSpace x), pyIsSpace x = false := by
            intro x hx
            have := List.mem_takeWhile_imp hx
            simpa using this
          have htcs : cs.takeWhile (fun x => !pyIsSpace x) ++
              cs.dropWhile (fun x => !pyIsSpace x) = cs :=
            List.takeWhile_append_dropWhile _ _
          have hcnt : ∀ x ∈ c :: cs.takeWhile (fun x => !pyIsSpace x), pyIsSpace x = false := by
            intro x hx
            rcases List.mem_cons.mp hx with rfl | hx2
            · exact hc'
            · exact htmem x hx2
          rcases hdw : (cs.dropWhile (fun x => !pyIsSpace x)).dropWhile pyIsSpace
            with _ | ⟨w, r2⟩
          · -- the rest after the first word is all whitespace
            have hallws : ∀ x ∈ cs.dropWhile (fun x => !pyIsSpace x), pyIsSpace x = true := by
              intro x hx
              have := (List.dropWhile_eq_nil_iff).mp hdw x hx
              simpa using this
            have hwr : pyWords (cs.dropWhile (fun x => !pyIsSpace x)) = [] := by
              rw [← pyWords_dropWhile, hdw, pyWords_nil]
            rw [hwr]
            show c :: cs.takeWhile (fun x => !pyIsSpace x) =
              collapseRuns false (trimEndChars (c :: cs))
            rw [show (c :: cs) = (c :: cs.takeWhile (fun x => !pyIsSpace x)) ++
                cs.dropWhile (fun x => !pyIsSpace x) by rw [List.cons_append, htcs]]
            rw [trimEnd_append_ws _ _ hallws]
            rw [trimEnd_all_nonws _ hcnt]
            rw [collapse_nonws _ hcnt]
          · -- a further word exists
            have hw : pyIsSpace w = false :=
              dropWhile_head_false pyIsSpace _ w r2 hdw
            have hwords : pyWords (cs.dropWhile (fun x => !pyIsSpace x)) = pyWords (w :: r2) := by
              rw [← pyWords_dropWhile, hdw]
            have hwne : pyWords (w :: r2) ≠ [] := by
              rw [pyWords_cons_nonws w r2 hw]
              simp
            rw [hwords, joinSpace_cons_ne _ _ hwne]
            -- r is nonempty with a whitespace head
            have hrne : cs.dropWhile (fun x => !pyIsSpace x) ≠ [] := by
              intro hnil
              rw [hnil] at hdw
              simp at hdw
            obtain ⟨rh, rt, hrsh⟩ : ∃ rh rt, cs.dropWhile (fun x => !pyIsSpace x) = rh :: rt := by
              rcases hr : cs.dropWhile (fun x => !pyIsSpace x) with _ | ⟨rh, rt⟩
              · exact absurd hr hrne
              · exact ⟨rh, rt, rfl⟩
            have hrh : pyIsSpace rh = true := by
              have := dropWhile_head_false (fun x => !pyIsSpace x) cs rh rt hrsh
              simpa using this
            have hrunsplit : (cs.dropWhile (fun x => !pyIsSpace x)).takeWhile pyIsSpace ++
                (w :: r2) = cs.dropWhile (fun x => !pyIsSpace x) := by
              rw [← hdw]
              exact List.takeWhile_append_dropWhile _ _
            have hrunws : ∀ x ∈ (cs.dropWhile (fun x => !pyIsSpace x)).takeWhile pyIsSpace,
                pyIsSpace x = true := fun x hx => List.mem_takeWhile_imp hx
            have hrunne : (cs.dropWhile (fun x => !pyIsSpace x)).takeWhile pyIsSpace ≠ [] := by
              rw [hrsh, List.takeWhile_cons_of_pos hrh]
              simp
            -- IH on the tail word list
            have hlen : (w :: r2).length ≤ n := by
              have h1 : (w :: r2).length ≤ (cs.dropWhile (fun x => !pyIsSpace x)).length := by
                rw [← hdw]
                exact (List.dropWhile_sublist _).length_le
              have h2 : (cs.dropWhile (fun x => !pyIsSpace x)).length ≤ cs.length :=
                (List.dropWhile_sublist _).length_le
              simp at hm
              omega
            have hih := ih (w :: r2) hlen
            rw [List.dropWhile_cons_of_neg (by simp [hw])] at hih
            rw [hih]
            -- now rewrite the right-hand side
            rw [show (c :: cs) = (c :: cs.takeWhile (fun x => !pyIsSpace x)) ++
                ((cs.dropWhile (fun x => !pyIsSpace x)).takeWhile pyIsSpace ++ (w :: r2)) by
              rw [hrunsplit, List.cons_append, htcs]]
            have htwne : trimEndChars (w :: r2) ≠ [] := trimEnd_ne_nil w r2 hw
            rw [← List.append_assoc]
            rw [trimEnd_append_ne _ _ htwne]
            rw [List.append_assoc]
            rw [collapse_nonws_append _ _ hcnt]
            have hz : trimEndChars (w :: r2) = [] ∨
                ∃ w2 z2, trimEndChars (w :: r2) = w2 :: z2 ∧ pyIsSpace w2 = false := by
              rcases trimEnd_cons_shape w r2 with h | ⟨rr, h⟩
              · exact Or.inl h
              · exact Or.inr ⟨w, rr, h, hw⟩
            have hz' : trimEndChars (w :: r2) = [] ∨
                ∃ w2 z2, trimEndChars (w :: r2) = w2 :: z2 ∧ pyIsSpace w2 = false := hz
            rw [collapse_ws_run _ _ hrunws hrunne (by
              rcases hz with h | ⟨w2, z2, h, hw2⟩
              · exact Or.inl h
              · exact Or.inr ⟨w2, z2, h, hw2⟩)]
  intro m
  exact H m.length m (le_refl _)

theorem pyIsSpace_eq_false_of_ge (c : Char) (h : 33 ≤ c.toNat) : pyIsSpace c = false := by
  unfold pyIsSpace
  refine decide_eq_false ?_
  intro hmem
  have hv : c.toNat = 32 ∨ c.toNat = 9 ∨ c.toNat = 10 ∨ c.toNat = 13 ∨
      c.toNat = 11 ∨ c.toNat = 12 := by
    rcases hmem with h' | h' | h' | h' | h' | h' <;> subst h' <;> decide
  omega

theorem pyIsSpace_lowerChar (c : Char) : pyIsSpace (lowerChar c) = pyIsSpace c := by
  unfold lowerChar
  split
  case isTrue h =>
    have h1 : 65 ≤ c.toNat := h.1
    have h2 : c.toNat ≤ 90 := h.2
    rw [pyIsSpace_eq_false_of_ge c (by omega)]
    interval_cases hv : c.toNat <;> decide
  case isFalse h => rfl

theorem dropWhile_map_lower (l : List Char) :
    (l.map lowerChar).dropWhile pyIsSpace = (l.dropWhile pyIsSpace).map lowerChar := by
  induction l with
  | nil => rfl
  | cons c cs ih =>
    by_cases h : pyIsSpace c = true
    · rw [List.map_cons, List.dropWhile_cons_of_pos (by rw [pyIsSpace_lowerChar]; exact h),
        List.dropWhile_cons_of_pos h, ih]
    · have h' : pyIsSpace c = false := by simp_all
      rw [List.map_cons, List.dropWhile_cons_of_neg (by rw [pyIsSpace_lowerChar]; simp [h']),
        List.dropWhile_cons_of_neg (by simp [h']), List.map_cons]

theorem trimEnd_map_lower (l : List Char) :
    trimEndChars (l.map lowerChar) = (trimEndChars l).map lowerChar := by
  induction l with
  | nil => rfl
  | cons c cs ih =>
    rw [List.map_cons, trimEndChars, ih, trimEndChars]
    rcases htr : trimEndChars cs with _ | ⟨d, ds⟩
    · rw [List.map_nil, pyIsSpace_lowerChar]
      by_cases h : pyIsSpace c = true
      · rw [if_pos h, if_pos h]
        rfl
      · rw [if_neg h, if_neg h]
        rfl
    · rfl

theorem trimEnd_idem (l : List Char) : trimEndChars (trimEndChars l) = trimEndChars l := by
  induction l with
  | nil => rfl
  | cons c cs ih =>
    rw [trimEndChars]
    rcases htr : trimEndChars cs with _ | ⟨d, ds⟩
    · by_cases h : pyIsSpace c = true
      · rw [if_pos h]
        rfl
      · rw [if_neg h, trimEndChars]
        rw [show trimEndChars [] = [] from rfl, if_neg h]
    · show trimEndChars (c :: d :: ds) = c :: d :: ds
      rw [htr] at ih
      rw [trimEndChars, ih]

theorem pyStrip_no_lead (l : List Char) :
    (pyStrip l).dropWhile pyIsSpace = pyStrip l := by
  unfold pyStrip
  rcases hdw : l.dropWhile pyIsSpace with _ | ⟨c, cs⟩
  · rfl
  · have hc : pyIsSpace c = false := dropWhile_head_false pyIsSpace l c cs hdw
    rcases trimEnd_cons_shape c cs with h | ⟨r, h⟩
    · rw [h]
      rfl
    · rw [h, List.dropWhile_cons_of_neg (by simp [hc])]

/-- `normalize_species` computes exactly the trim-lowercase-collapse
normal form. -/
theorem normalizeSpecies_eq_specNormalizeTrim (s : List Char) :
    normalizeSpecies s = specNormalizeTrim s := by
  unfold normalizeSpecies specNormalizeTrim
  rw [words_collapse_core]
  rw [dropWhile_map_lower, pyStrip_no_lead, trimEnd_map_lower]
  have h : trimEndChars (pyStrip s) = pyStrip s := by
    unfold pyStrip
    exact trimEnd_idem _
  rw [h]

/-- C8 (amended): the Metadata Resolver accepts a candidate's organism
name if and only if the two names are equal after trimming leading and
trailing whitespace, lowercasing, and collapsing every interior maximal
whitespace run to a single space — exact equality after normalization,
never substring containment (so "Staphylococcus aureus" matches
"staphylococcus   aureus" but not
"Staphylococcus aureus subsp. aureus"). -/
theorem C8_species_equality (requested candidate : List Char) :
    speciesAccepted requested candidate = true ↔
      specNormalizeTrim candidate = specNormalizeTrim requested := by
  unfold speciesAccepted
  rw [normalizeSpecies_eq_specNormalizeTrim, normalizeSpecies_eq_specNormalizeTrim]
  exact beq_iff_eq

/-- C8 (counterexample): the claim's normalization ("lowercasing and
collapsing all maximal whitespace runs to a single space") keeps a
leading whitespace run as one space, so under the claim
" Staphylococcus aureus" must not match "Staphylococcus aureus"; the
code's `strip()`/`split()` discard edge whitespace and accept the
pair. -/
theorem C8_edge_whitespace_counterexample :
    speciesAccepted "Staphylococcus aureus".toList " Staphylococcus aureus".toList = true ∧
    claimNormalize " Staphylococcus aureus".toList ≠
      claimNormalize "Staphylococcus aureus".toList := by
  constructor
  · simp [speciesAccepted, normalizeSpecies, pyStrip, pyWords, joinSpace, trimEndChars,
      pyIsSpace, lowerChar]
  · decide

/-- C8 (witness): the amended equivalence applied at the claim's own
example pair: case and interior whitespace are ignored. -/
theorem C8_witness :
    speciesAccepted "Staphylococcus aureus".toList "staphylococcus   aureus".toList = true :=
  (C8_species_equality "Staphylococcus aureus".toList
    "staphylococcus   aureus".toList).mpr (by decide)
